import Mathlib

/-!
Verification of the Lingualibre-inventory-tool text rewrite engine.

The repository's core is an ordered, conditionally-gated, scope-aware text
rewrite engine appearing in two shapes:

* `applyRules` in the Node batch cleaner (`clean-xml.js`): applies an ordered
  list of regex rules to a document, with per-rule feature gating
  (`rule.requires`), two scopes (whole text vs. line-by-line inside
  `<text ...> ... </text>` regions), escaped-newline expansion in replacement
  templates, and a running change count.
* `transformPageTitle` in the userscripts: folds the rule list over a single
  page title, with an empty-result fallback to the original title and a
  `redirectToCommons` side-channel tested against the original title.

Strings are modelled as `List Char`. The JavaScript regular-expression engine
(an external runtime facility, not repository code) is modelled by a small
deterministic fragment sufficient for the patterns the claims mention:
literals, the `^` anchor, sequencing, alternation and capturing groups, with
JavaScript's leftmost-match search, global-replace loop (including the
advance-past-empty-match rule) and `$n` replacement templates.
-/

set_option autoImplicit false

abbrev Str := List Char

/-! ### Regex fragment with JavaScript matching semantics -/

/-- Abstract syntax of the regex fragment used to model `new RegExp(...)`. -/
inductive Regex where
  | lit (cs : Str)
  | bol
  | seq (a b : Regex)
  | alt (a b : Regex)
  | grp (r : Regex)
deriving DecidableEq

/-- Number of capturing groups, in JavaScript's left-paren numbering. -/
def numCaps : Regex → Nat
  | Regex.lit _ => 0
  | Regex.bol => 0
  | Regex.seq a b => numCaps a + numCaps b
  | Regex.alt a b => numCaps a + numCaps b
  | Regex.grp r => numCaps r + 1

/-- All candidate matches of `re` at absolute position `pos` whose suffix is
`s`, as (consumed length, captures) pairs in backtracking priority order.
JavaScript takes the first. -/
def rmatch : Regex → Nat → Str → List (Nat × List (Option Str))
  | Regex.lit cs, _, s => if cs.isPrefixOf s then [(cs.length, [])] else []
  | Regex.bol, pos, _ => if pos = 0 then [(0, [])] else []
  | Regex.seq a b, pos, s =>
      (rmatch a pos s).flatMap (fun p =>
        (rmatch b (pos + p.1) (s.drop p.1)).map (fun q => (p.1 + q.1, p.2 ++ q.2)))
  | Regex.alt a b, pos, s =>
      ((rmatch a pos s).map (fun p => (p.1, p.2 ++ List.replicate (numCaps b) none)))
        ++ ((rmatch b pos s).map (fun p => (p.1, List.replicate (numCaps a) none ++ p.2)))
  | Regex.grp r, pos, s =>
      (rmatch r pos s).map (fun p => (p.1, some (s.take p.1) :: p.2))

/-- Leftmost match search from absolute position `pos` (whose suffix is `s`):
returns (start, length, captures) of the first match, trying successive start
positions like the JavaScript engine. -/
def searchFrom (re : Regex) : Nat → Str → Option (Nat × Nat × List (Option Str))
  | pos, [] =>
    match (rmatch re pos []).head? with
    | some p => some (pos, p.1, p.2)
    | none => none
  | pos, c :: rest =>
    match (rmatch re pos (c :: rest)).head? with
    | some p => some (pos, p.1, p.2)
    | none => searchFrom re (pos + 1) rest

/-- The global-flag match-collection loop of `RegExp.prototype[Symbol.replace]`
and `String.prototype.match`: repeatedly search from `lastIndex` `i`, and after
an empty match advance one position (JavaScript's `AdvanceStringIndex`).
`fuel` bounds the iteration count; `none` means the fuel ran out. -/
def collectGoOpt (re : Regex) (s : Str) : Nat → Nat → Option (List (Nat × Nat × List (Option Str)))
  | 0, _ => none
  | fuel + 1, i =>
    if s.length < i then some []
    else
      match searchFrom re i (s.drop i) with
      | none => some []
      | some m =>
        (collectGoOpt re s fuel (if m.2.1 = 0 then m.1 + 1 else m.1 + m.2.1)).map
          (fun ms => m :: ms)

/-- All matches of a global regex over `s` (the fuel `s.length + 2` always
suffices; see the termination theorem). -/
def collectMatches (re : Regex) (s : Str) : List (Nat × Nat × List (Option Str)) :=
  (collectGoOpt re s (s.length + 2) 0).getD []

/-- JavaScript `GetSubstitution` on the fragment we need: `$$` is a literal
dollar and `$d` (one digit, `1 ≤ d ≤` number of captures) inserts capture `d`
(empty when the group did not participate); anything else is literal. -/
def applyTemplate (caps : List (Option Str)) : Str → Str
  | [] => []
  | '$' :: '$' :: rest => '$' :: applyTemplate caps rest
  | '$' :: c :: rest =>
    let d := c.toNat - '0'.toNat
    if c.isDigit ∧ 1 ≤ d ∧ d ≤ caps.length then
      (caps.getD (d - 1) none).getD [] ++ applyTemplate caps rest
    else
      '$' :: applyTemplate caps (c :: rest)
  | c :: rest => c :: applyTemplate caps rest

/-- Build the replaced string from the collected matches: copy the gap before
each match, insert the instantiated template, and copy the tail. -/
def buildRep (s : Str) (tmpl : Str) : Nat → List (Nat × Nat × List (Option Str)) → Str
  | last, [] => s.drop last
  | last, m :: ms =>
    (s.drop last).take (m.1 - last) ++ applyTemplate m.2.2 tmpl
      ++ buildRep s tmpl (m.1 + m.2.1) ms

/-- Model of `s.replace(re, tmpl)` for a regex carrying the `g` flag. -/
def replaceAll (re : Regex) (tmpl : Str) (s : Str) : Str :=
  buildRep s tmpl 0 (collectMatches re s)

/-- Model of `s.replace(re, tmpl)` for a regex without the `g` flag: only the
first match is replaced. -/
def replaceFirst (re : Regex) (tmpl : Str) (s : Str) : Str :=
  match searchFrom re 0 s with
  | none => s
  | some m => s.take m.1 ++ applyTemplate m.2.2 tmpl ++ s.drop (m.1 + m.2.1)

/-- `String.prototype.replace` dispatching on the `g` flag. -/
def jsReplace (re : Regex) (tmpl : Str) (g : Bool) (s : Str) : Str :=
  if g then replaceAll re tmpl s else replaceFirst re tmpl s

/-- Length of `s.match(re) || []`: for a global regex the number of matches;
otherwise the exec-style array `[whole, group1, ...]` has length
`1 + numCaps re` when a match exists, and the `|| []` fallback gives 0. -/
def jsMatchCount (re : Regex) (g : Bool) (s : Str) : Nat :=
  if g then (collectMatches re s).length
  else
    match searchFrom re 0 s with
    | some _ => 1 + numCaps re
    | none => 0

/-- Model of `re.test(s)` (with `lastIndex` 0). -/
def reTest (re : Regex) (s : Str) : Bool :=
  (searchFrom re 0 s).isSome

/-- Model of `rule.replace.replace(/\\n/g, '\n')`: expand the two-character
escaped-newline marker to a literal line break, left to right. -/
def expandNewlines : Str → Str
  | [] => []
  | '\\' :: 'n' :: rest => '\n' :: expandNewlines rest
  | c :: rest => c :: expandNewlines rest

/-! ### Line-delimited regions: the hardcoded
`/(<text[^>]*>)([\s\S]*?)(<\/text>)/g` split -/

/-- A segment of a document: a single character outside every delimited
region, or one region as (open tag, interior); the close tag is the constant
`</text>`. -/
inductive Seg where
  | out (c : Char)
  | reg (openTag inner : Str)
deriving DecidableEq

def openMark : Str := "<text".toList

def closeMark : Str := "</text>".toList

/-- Match `<text[^>]*>` at the head of `s` (greedy attribute span, then `>`),
returning the matched open tag and the rest. -/
def readOpen (s : Str) : Option (Str × Str) :=
  if openMark.isPrefixOf s then
    match (s.drop openMark.length).dropWhile (fun c => c ≠ '>') with
    | '>' :: r =>
      some (openMark ++ (s.drop openMark.length).takeWhile (fun c => c ≠ '>') ++ ['>'], r)
    | _ => none
  else none

/-- Lazy scan for the first `</text>`: returns (interior before it, rest
after it). -/
def findClose : Str → Option (Str × Str)
  | [] => none
  | c :: rest =>
    if closeMark.isPrefixOf (c :: rest) then some ([], (c :: rest).drop closeMark.length)
    else (findClose rest).map (fun p => (c :: p.1, p.2))

/-- Left-to-right global search for complete regions. A position where the
open tag matches but no close tag follows fails there and the scan advances
one character, exactly like the JavaScript regex. On fuel exhaustion
(unreachable for fuel > length) the rest counts as outside. -/
def splitGo : Nat → Str → List Seg
  | 0, s => s.map Seg.out
  | _ + 1, [] => []
  | fuel + 1, c :: rest =>
    match readOpen (c :: rest) with
    | some o =>
      match findClose o.2 with
      | some p => Seg.reg o.1 p.1 :: splitGo fuel p.2
      | none => Seg.out c :: splitGo fuel rest
    | none => Seg.out c :: splitGo fuel rest

/-- Decompose a document into outside characters and delimited regions. -/
def splitSegs (s : Str) : List Seg :=
  splitGo (s.length + 1) s

/-- Reassemble a segment list into a document. -/
def joinSegs (segs : List Seg) : Str :=
  segs.flatMap (fun sg =>
    match sg with
    | Seg.out c => [c]
    | Seg.reg o inner => o ++ inner ++ closeMark)

/-- Apply a function to the interior of a region, leaving outside characters
and tags untouched. -/
def mapInner (f : Str → Str) : Seg → Seg
  | Seg.out c => Seg.out c
  | Seg.reg o inner => Seg.reg o (f inner)

/-- Model of `textContent.split('\n')`. -/
def splitNl : Str → List Str
  | [] => [[]]
  | '\n' :: rest => [] :: splitNl rest
  | c :: rest =>
    match splitNl rest with
    | l :: ls => (c :: l) :: ls
    | [] => [[c]]

/-- Model of `lines.join('\n')`. -/
def joinNl : List Str → Str
  | [] => []
  | [l] => l
  | l :: ls => l ++ '\n' :: joinNl ls

/-- The per-region line loop of `applyRules`: rewrite each line and count the
lines whose text changed (the `lineChanges` counter of the source). -/
def processLines (re : Regex) (tmpl : Str) (g : Bool) : List Str → List Str × Nat
  | [] => ([], 0)
  | l :: ls =>
    (jsReplace re tmpl g l :: (processLines re tmpl g ls).1,
     (if jsReplace re tmpl g l ≠ l then 1 else 0) + (processLines re tmpl g ls).2)

/-- Rewrite the interior of one region line by line. -/
def innerRewrite (re : Regex) (tmpl : Str) (g : Bool) (inner : Str) : Str :=
  joinNl (processLines re tmpl g (splitNl inner)).1

/-- The `lineByLine` branch of `applyRules`:
`modified.replace(/(<text[^>]*>)([\s\S]*?)(<\/text>)/g, cb)` where the
callback rewrites each line of the interior and counts changed lines. -/
def applyLineByLine (re : Regex) (tmpl : Str) (g : Bool) (s : Str) : Str × Nat :=
  let segs := splitSegs s
  (joinSegs (segs.map (mapInner (innerRewrite re tmpl g))),
   (segs.map (fun sg =>
     match sg with
     | Seg.out _ => 0
     | Seg.reg _ inner => (processLines re tmpl g (splitNl inner)).2)).sum)

/-! ### The document transformer `applyRules` of clean-xml.js -/

/-- One content rule of `json/replaces.json` as `applyRules` consumes it.
`pat = none` models a `match` pattern on which `new RegExp` throws.
`gflag` records whether `rule.flags || 'g'` contains `g`. -/
structure CRule where
  pat : Option Regex
  replace : Str
  gflag : Bool := true
  requires : Option Str := none
  lineByLine : Bool := false
deriving DecidableEq

/-- The gate `rule.requires && !activatedFeatures.has(rule.requires)`; note
that an empty `requires` string is falsy in JavaScript and so never skips. -/
def ruleSkipped (acts : List Str) (r : CRule) : Bool :=
  match r.requires with
  | none => false
  | some f => decide (f ≠ []) && !(decide (f ∈ acts))

/-- One iteration of the rule loop of `applyRules`, threading
(current text, running change count). A rule whose pattern fails to compile
lands in the `catch` and leaves the state untouched. -/
def applyRuleStep (acts : List Str) (st : Str × Nat) (r : CRule) : Str × Nat :=
  if ruleSkipped acts r then st
  else
    match r.pat with
    | none => st
    | some re =>
      if r.lineByLine then
        ((applyLineByLine re (expandNewlines r.replace) r.gflag st.1).1,
         st.2 + (applyLineByLine re (expandNewlines r.replace) r.gflag st.1).2)
      else
        if jsReplace re (expandNewlines r.replace) r.gflag st.1 ≠ st.1 then
          (jsReplace re (expandNewlines r.replace) r.gflag st.1,
           st.2 + jsMatchCount re r.gflag st.1)
        else st

/-- `applyRules(content)`: fold the ordered rule list over the document,
returning the rewritten text and the total change count. -/
def applyRules (acts : List Str) (rules : List CRule) (content : Str) : Str × Nat :=
  rules.foldl (applyRuleStep acts) (content, 0)

/-! ### The title transformer `transformPageTitle` of the userscripts -/

/-- One title rule: pattern, replacement, and the `redirectToCommons` marker. -/
structure TRule where
  pat : Regex
  replace : Str
  redirectToCommons : Bool := false
deriving DecidableEq

/-- The loop state of `transformPageTitle`; the source's single `hasChanged`
flag is `changed || redir`, split by which branch set it. -/
structure TAcc where
  cur : Str
  changed : Bool
  redir : Bool
deriving DecidableEq

/-- One iteration of the title rule loop: rewrite the cascaded title (with the
`newTitle || title` empty-string fallback to the original), else test the
`redirectToCommons` pattern against the original title. -/
def tStep (title : Str) (a : TAcc) (r : TRule) : TAcc :=
  if replaceAll r.pat r.replace a.cur ≠ a.cur then
    ⟨if replaceAll r.pat r.replace a.cur = [] then title
      else replaceAll r.pat r.replace a.cur, true, a.redir⟩
  else if r.redirectToCommons && reTest r.pat title then
    ⟨a.cur, a.changed, true⟩
  else a

/-- The full fold of `transformPageTitle`'s rule loop. -/
def transformTitleAcc (rules : List TRule) (title : Str) : TAcc :=
  rules.foldl (tStep title) ⟨title, false, false⟩

/-- `transformPageTitle(title)`: the transformed title when any rule changed
it or flagged a redirect, `null` otherwise. -/
def transformPageTitle (rules : List TRule) (title : Str) : Option Str :=
  if (transformTitleAcc rules title).changed || (transformTitleAcc rules title).redir
  then some (transformTitleAcc rules title).cur else none

/-- The (newTitle, redirect) decomposition of the title transformer's result
used by the specification: a new title only when the text actually changed,
and the redirect side channel. -/
def titleView (rules : List TRule) (title : Str) : Option Str × Bool :=
  (if (transformTitleAcc rules title).changed
    then some (transformTitleAcc rules title).cur else none,
   (transformTitleAcc rules title).redir)

/-! ### Specification-side definition for the line-delimited match count -/

/-- Modelled from the spec: "matchCount = sum of per-line match counts across
all regions" — the count the specification asserts for `LineDelimited` rules,
to be compared with what `applyRules` actually accumulates. -/
def lineMatchSumSpec (re : Regex) (g : Bool) (s : Str) : Nat :=
  ((splitSegs s).map (fun sg =>
    match sg with
    | Seg.out _ => 0
    | Seg.reg _ inner => ((splitNl inner).map (fun l => jsMatchCount re g l)).sum)).sum

/-- The count `applyRules` actually accumulates for a `lineByLine` rule,
written declaratively: the number of lines, across all regions, whose text
the rule changed. -/
def changedLineSum (re : Regex) (tmpl : Str) (g : Bool) (s : Str) : Nat :=
  ((splitSegs s).map (fun sg =>
    match sg with
    | Seg.out _ => 0
    | Seg.reg _ inner =>
      (splitNl inner).countP (fun l => decide (jsReplace re tmpl g l ≠ l)))).sum

/-! ### Concrete rules and inputs used by the claims -/

/-- The pattern `^(User:)`. -/
def reUser : Regex := Regex.seq Regex.bol (Regex.grp (Regex.lit "User:".toList))

/-- The title rule `match="^(User:)", replace="$1", redirectToCommons=true`. -/
def c1Rule : TRule := ⟨reUser, "$1".toList, true⟩

def c1Title : Str := "User:Example".toList

/-- A `lineByLine` content rule rewriting `a` to `b`. -/
def c2Rule : CRule := ⟨some (Regex.lit "a".toList), "b".toList, true, none, true⟩

def c2Re : Regex := Regex.lit "a".toList

def c2Text : Str := "<text>aa</text>".toList

/-- A whole-text content rule whose replacement is the identity `a` → `a`. -/
def c3Rule : CRule := ⟨some (Regex.lit "a".toList), "a".toList, true, none, false⟩

/-- A `lineByLine` content rule rewriting `w` to `W`. -/
def c4Rule : CRule := ⟨some (Regex.lit "w".toList), "W".toList, true, none, true⟩

def c4Text : Str := "pre<text a=b>w1\nw2 w</text>post".toList

/-- A content rule gated on the feature `list`. -/
def c5Rule : CRule := ⟨some (Regex.lit "a".toList), "b".toList, true, some "list".toList, false⟩

/-- A content rule whose pattern fails to compile. -/
def c6Rule : CRule := ⟨none, "x".toList, true, none, false⟩

/-- Content rule A: `a` → `b`. -/
def c8RuleA : CRule := ⟨some (Regex.lit "a".toList), "b".toList, true, none, false⟩

/-- Content rule B: `b` → `c`. -/
def c8RuleB : CRule := ⟨some (Regex.lit "b".toList), "c".toList, true, none, false⟩

/-- A title rule rewriting `X` to `User:`. -/
def c7RuleA : TRule := ⟨Regex.lit "X".toList, "User:".toList, false⟩

/-- The redirect title rule `^(User:)` → `$1`. -/
def c7RuleB : TRule := ⟨reUser, "$1".toList, true⟩

def c7Title : Str := "XExample".toList

/-- A title rule whose replacement erases the whole title. -/
def c10Rule : TRule := ⟨Regex.lit "T".toList, [], false⟩

/-! ### Helper lemmas -/

theorem applyRuleStep_skipped (acts : List Str) (st : Str × Nat) (r : CRule)
    (h : ruleSkipped acts r = true) : applyRuleStep acts st r = st := by
  unfold applyRuleStep
  rw [h]
  simp

theorem applyRuleStep_badPat (acts : List Str) (st : Str × Nat) (r : CRule)
    (h : r.pat = none) : applyRuleStep acts st r = st := by
  unfold applyRuleStep
  rw [h]
  split <;> rfl

theorem applyRuleStep_fst (acts : List Str) (r : CRule) (t : Str) (c c' : Nat) :
    (applyRuleStep acts (t, c) r).1 = (applyRuleStep acts (t, c') r).1 := by
  unfold applyRuleStep
  split
  · rfl
  · split
    · rfl
    · split
      · rfl
      · split <;> rfl

theorem foldl_step_fst (acts : List Str) :
    ∀ (rules : List CRule) (st st' : Str × Nat), st.1 = st'.1 →
      (rules.foldl (applyRuleStep acts) st).1 = (rules.foldl (applyRuleStep acts) st').1
  | [], _, _, h => h
  | r :: rs, st, st', h => by
    rw [List.foldl_cons, List.foldl_cons]
    apply foldl_step_fst acts rs
    obtain ⟨t, c⟩ := st
    obtain ⟨t', c'⟩ := st'
    simp only at h
    subst h
    exact applyRuleStep_fst acts r t c c'

/-- Removing a rule that acts as the identity on every state does not change
a full run. -/
theorem applyRules_dropRule (acts : List Str) (r : CRule)
    (h : ∀ st, applyRuleStep acts st r = st) (l₁ l₂ : List CRule) (t : Str) :
    applyRules acts (l₁ ++ r :: l₂) t = applyRules acts (l₁ ++ l₂) t := by
  unfold applyRules
  rw [List.foldl_append, List.foldl_append, List.foldl_cons, h]

theorem searchFrom_start_le (re : Regex) :
    ∀ (s : Str) (pos : Nat) (m : Nat × Nat × List (Option Str)),
      searchFrom re pos s = some m → pos ≤ m.1 := by
  intro s
  induction s with
  | nil =>
    intro pos m h
    unfold searchFrom at h
    cases hh : (rmatch re pos []).head? with
    | some p =>
      rw [hh] at h
      simp only [Option.some.injEq] at h
      subst h
      exact Nat.le_refl pos
    | none => rw [hh] at h; simp at h
  | cons c rest ih =>
    intro pos m h
    unfold searchFrom at h
    cases hh : (rmatch re pos (c :: rest)).head? with
    | some p =>
      rw [hh] at h
      simp only [Option.some.injEq] at h
      subst h
      exact Nat.le_refl pos
    | none =>
      rw [hh] at h
      have := ih (pos + 1) m h
      omega

/-- The replace loop always completes within `length + 1` searches: the
`lastIndex` strictly increases, in particular past every empty match. -/
theorem collectGoOpt_isSome (re : Regex) (s : Str) :
    ∀ (fuel i : Nat), s.length + 1 - i < fuel → (collectGoOpt re s fuel i).isSome = true := by
  intro fuel
  induction fuel with
  | zero => intro i h; omega
  | succ f ih =>
    intro i h
    unfold collectGoOpt
    by_cases hi : s.length < i
    · rw [if_pos hi]; rfl
    · rw [if_neg hi]
      cases hs : searchFrom re i (s.drop i) with
      | none => rfl
      | some m =>
        have hge : i ≤ m.1 := searchFrom_start_le re (s.drop i) i m hs
        have hrec : (collectGoOpt re s f (if m.2.1 = 0 then m.1 + 1 else m.1 + m.2.1)).isSome = true := by
          apply ih
          by_cases hz : m.2.1 = 0
          · rw [if_pos hz]; omega
          · rw [if_neg hz]; omega
        obtain ⟨v, hv⟩ := Option.isSome_iff_exists.mp hrec
        show (Option.map (fun ms => m :: ms)
          (collectGoOpt re s f (if m.2.1 = 0 then m.1 + 1 else m.1 + m.2.1))).isSome = true
        rw [hv]
        rfl

theorem joinSegs_out (c : Char) (segs : List Seg) :
    joinSegs (Seg.out c :: segs) = c :: joinSegs segs := by
  simp [joinSegs]

theorem joinSegs_reg (o inner : Str) (segs : List Seg) :
    joinSegs (Seg.reg o inner :: segs) = o ++ (inner ++ (closeMark ++ joinSegs segs)) := by
  simp [joinSegs]

theorem joinSegs_map_out : ∀ s : Str, joinSegs (s.map Seg.out) = s
  | [] => rfl
  | c :: rest => by
    rw [List.map_cons, joinSegs_out, joinSegs_map_out rest]

theorem readOpen_append (s o r : Str) (h : readOpen s = some (o, r)) : o ++ r = s := by
  unfold readOpen at h
  split at h
  · next hp =>
    obtain ⟨t, ht⟩ := List.isPrefixOf_iff_prefix.mp hp
    rw [← ht, List.drop_left] at h
    split at h
    · next rr heq =>
      simp only [Option.some.injEq, Prod.mk.injEq] at h
      obtain ⟨h1, h2⟩ := h
      subst h1
      subst h2
      rw [← ht]
      have := List.takeWhile_append_dropWhile (fun c => decide (c ≠ '>')) t
      rw [heq] at this
      conv_rhs => rw [← this]
      simp
    · exact absurd h (by simp)
  · exact absurd h (by simp)

theorem findClose_append : ∀ (s inner r : Str), findClose s = some (inner, r) →
    inner ++ closeMark ++ r = s
  | [], inner, r, h => by simp [findClose] at h
  | c :: rest, inner, r, h => by
    unfold findClose at h
    split at h
    · next hp =>
      simp only [Option.some.injEq, Prod.mk.injEq] at h
      obtain ⟨h1, h2⟩ := h
      subst h1
      subst h2
      obtain ⟨t, ht⟩ := List.isPrefixOf_iff_prefix.mp hp
      rw [List.nil_append, ← ht, List.drop_left]
    · cases hfc : findClose rest with
      | none => rw [hfc] at h; simp at h
      | some p =>
        rw [hfc] at h
        simp only [Option.map_some', Option.some.injEq, Prod.mk.injEq] at h
        obtain ⟨h1, h2⟩ := h
        subst h1
        subst h2
        have ihr := findClose_append rest p.1 p.2 (by rw [hfc])
        rw [List.cons_append, List.cons_append, ihr]

theorem joinSegs_splitGo : ∀ (fuel : Nat) (s : Str), joinSegs (splitGo fuel s) = s := by
  intro fuel
  induction fuel with
  | zero => exact joinSegs_map_out
  | succ f ih =>
    intro s
    cases s with
    | nil => rfl
    | cons c rest =>
      unfold splitGo
      split
      · next o hro =>
        split
        · next p hfc =>
          have h1 : o.1 ++ o.2 = c :: rest := readOpen_append (c :: rest) o.1 o.2 (by rw [hro])
          have h2 : p.1 ++ closeMark ++ p.2 = o.2 := findClose_append o.2 p.1 p.2 (by rw [hfc])
          rw [joinSegs_reg, ih p.2, ← h1, ← h2]
          simp
        · next hfc => rw [joinSegs_out, ih rest]
      · next hro => rw [joinSegs_out, ih rest]

/-- Splitting a document into region and outside segments and reassembling
them gives the document back. -/
theorem joinSegs_splitSegs (s : Str) : joinSegs (splitSegs s) = s :=
  joinSegs_splitGo (s.length + 1) s

theorem mapInner_id : ∀ sg : Seg, mapInner (fun x => x) sg = sg
  | Seg.out _ => rfl
  | Seg.reg _ _ => rfl

theorem map_mapInner_id : ∀ segs : List Seg, segs.map (mapInner (fun x => x)) = segs
  | [] => rfl
  | sg :: segs => by rw [List.map_cons, mapInner_id, map_mapInner_id segs]

/-- The imperative per-line change counter equals the number of lines the rule
changes. -/
theorem processLines_snd (re : Regex) (tmpl : Str) (g : Bool) :
    ∀ ls : List Str, (processLines re tmpl g ls).2 =
      ls.countP (fun l => decide (jsReplace re tmpl g l ≠ l))
  | [] => rfl
  | l :: ls => by
    have ih := processLines_snd re tmpl g ls
    simp only [processLines, ih, List.countP_cons]
    by_cases hc : jsReplace re tmpl g l ≠ l
    · simp [hc, Nat.add_comm]
    · simp [hc]

/-- Under the hypothesis that no rule's replacement moves the title, the fold
of the title loop keeps the title and the changed flag, and the redirect flag
accumulates exactly the `redirectToCommons` rules whose pattern matches the
title. -/
theorem tfold_fixed : ∀ (rules : List TRule) (title : Str) (rd : Bool),
    (∀ r ∈ rules, replaceAll r.pat r.replace title = title) →
    rules.foldl (tStep title) ⟨title, false, rd⟩ =
      ⟨title, false, rd || rules.any (fun r => r.redirectToCommons && reTest r.pat title)⟩
  | [], title, rd, _ => by simp
  | r :: rs, title, rd, H => by
    have hr : replaceAll r.pat r.replace title = title := H r (List.mem_cons_self r rs)
    have hstep : tStep title ⟨title, false, rd⟩ r =
        ⟨title, false, rd || (r.redirectToCommons && reTest r.pat title)⟩ := by
      unfold tStep
      simp only [hr]
      cases hb : r.redirectToCommons && reTest r.pat title with
      | true => simp [hb]
      | false => simp [hb]
    have H' : ∀ q ∈ rs, replaceAll q.pat q.replace title = title :=
      fun q hq => H q (List.mem_cons_of_mem r hq)
    rw [List.foldl_cons, hstep,
      tfold_fixed rs title (rd || (r.redirectToCommons && reTest r.pat title)) H',
      List.any_cons, Bool.or_assoc]

/-- The cascaded title is never the empty string when the input title is not
empty: the `newTitle || title` fallback restores the original. -/
theorem tfold_cur_ne_nil : ∀ (rules : List TRule) (title : Str) (a : TAcc),
    title ≠ [] → a.cur ≠ [] → (rules.foldl (tStep title) a).cur ≠ []
  | [], _, _, _, ha => ha
  | r :: rs, title, a, ht, ha => by
    rw [List.foldl_cons]
    apply tfold_cur_ne_nil rs title _ ht
    unfold tStep
    split
    · next hne =>
      by_cases hz : replaceAll r.pat r.replace a.cur = []
      · simpa [hz] using ht
      · simp [hz]
    · split
      · exact ha
      · exact ha

theorem applyRuleStep_eq (acts : List Str) (st : Str × Nat) (r : CRule) (re : Regex)
    (hsk : ruleSkipped acts r = false) (hp : r.pat = some re) :
    applyRuleStep acts st r =
      if r.lineByLine then
        ((applyLineByLine re (expandNewlines r.replace) r.gflag st.1).1,
         st.2 + (applyLineByLine re (expandNewlines r.replace) r.gflag st.1).2)
      else
        if jsReplace re (expandNewlines r.replace) r.gflag st.1 ≠ st.1 then
          (jsReplace re (expandNewlines r.replace) r.gflag st.1,
           st.2 + jsMatchCount re r.gflag st.1)
        else st := by
  unfold applyRuleStep
  rw [hsk, hp]
  rfl

/-! ### Claims -/

/-- C5: a rule carrying a (non-empty) `requiredFeature` name absent from the
activated-feature set is skipped entirely — it leaves the text exactly as the
previous rule left it and contributes zero to the change count, and a full run
equals the run with the rule removed; conversely a rule with no
`requiredFeature` is never gated out. -/
theorem c5_feature_gate :
    (∀ (acts : List Str) (r : CRule) (f : Str),
      r.requires = some f → f ≠ [] → f ∉ acts →
        (∀ st : Str × Nat, applyRuleStep acts st r = st) ∧
        (∀ (l₁ l₂ : List CRule) (t : Str),
          applyRules acts (l₁ ++ r :: l₂) t = applyRules acts (l₁ ++ l₂) t)) ∧
    (∀ (acts : List Str) (r : CRule), r.requires = none → ruleSkipped acts r = false) := by
  constructor
  · intro acts r f hreq hne hmem
    have hsk : ruleSkipped acts r = true := by
      unfold ruleSkipped
      rw [hreq]
      simp [hne, hmem]
    have hid : ∀ st : Str × Nat, applyRuleStep acts st r = st :=
      fun st => applyRuleStep_skipped acts st r hsk
    exact ⟨hid, fun l₁ l₂ t => applyRules_dropRule acts r hid l₁ l₂ t⟩
  · intro acts r h
    unfold ruleSkipped
    rw [h]

theorem c5_feature_gate_witness :
    (c5Rule.requires = some "list".toList ∧ "list".toList ≠ ([] : Str) ∧
      "list".toList ∉ ([] : List Str)) ∧
    applyRuleStep [] ("a".toList, 0) c5Rule = ("a".toList, 0) :=
  ⟨⟨rfl, by decide, by decide⟩,
    (c5_feature_gate.1 [] c5Rule "list".toList rfl (by decide) (by decide)).1 ("a".toList, 0)⟩

/-- C6: a rule whose pattern fails to compile is treated as a no-op for the
document — the next rule sees the same text and the failing rule contributes
zero changes — and the rest of the rule list still runs. -/
theorem c6_badPattern_noop :
    ∀ (acts : List Str) (r : CRule), r.pat = none →
      (∀ st : Str × Nat, applyRuleStep acts st r = st) ∧
      (∀ (l₁ l₂ : List CRule) (t : Str),
        applyRules acts (l₁ ++ r :: l₂) t = applyRules acts (l₁ ++ l₂) t) := by
  intro acts r h
  have hid : ∀ st : Str × Nat, applyRuleStep acts st r = st :=
    fun st => applyRuleStep_badPat acts st r h
  exact ⟨hid, fun l₁ l₂ t => applyRules_dropRule acts r hid l₁ l₂ t⟩

theorem c6_badPattern_noop_witness :
    (c6Rule.pat = none) ∧
    applyRules [] [c6Rule] "a".toList = applyRules [] [] "a".toList :=
  ⟨rfl, (c6_badPattern_noop [] c6Rule rfl).2 [] [] "a".toList⟩

/-- C8: the document transformer folds the rules in declared order, feeding
each rule the previous rule's output text, and the order is semantically
significant: the rules `a` → `b` and `b` → `c` give different results on `a`
in the two orders. -/
theorem c8_order_sensitivity :
    (∀ (acts : List Str) (r : CRule) (rs : List CRule) (t : Str),
      (applyRules acts (r :: rs) t).1 =
        (applyRules acts rs ((applyRuleStep acts (t, 0) r).1)).1) ∧
    applyRules [] [c8RuleA, c8RuleB] "a".toList ≠
      applyRules [] [c8RuleB, c8RuleA] "a".toList := by
  constructor
  · intro acts r rs t
    unfold applyRules
    rw [List.foldl_cons]
    exact foldl_step_fst acts rs _ _ rfl
  · decide

/-- C9: applying a rule to a finite text terminates: the global replace loop
always completes within `length + 1` searches, advancing deterministically
past empty matches; on `"ab"` the empty-matching pattern produces the
JavaScript result `XaXbX`. -/
theorem c9_zero_width_termination :
    (∀ (re : Regex) (s : Str) (fuel i : Nat),
      s.length + 1 - i < fuel → (collectGoOpt re s fuel i).isSome = true) ∧
    replaceAll (Regex.lit []) "X".toList "ab".toList = "XaXbX".toList :=
  ⟨fun re s fuel i h => collectGoOpt_isSome re s fuel i h, by decide⟩

theorem c9_zero_width_termination_witness :
    ("ab".toList.length + 1 - 0 < 4) ∧
    (collectGoOpt (Regex.lit []) "ab".toList 4 0).isSome = true :=
  ⟨by decide, c9_zero_width_termination.1 (Regex.lit []) "ab".toList 4 0 (by decide)⟩

/-- C4: a `LineDelimited` rule rewrites only region interiors: a run of such a
rule produces the reassembly of the input's segments with some function
applied to the interiors only, while splitting and reassembling is the
identity — so every character outside the delimited regions of the input is
byte-for-byte unchanged. -/
theorem c4_outside_regions_unchanged :
    ∀ (r : CRule) (acts : List Str) (text : Str), r.lineByLine = true →
      joinSegs (splitSegs text) = text ∧
      ∃ f : Str → Str, (applyRules acts [r] text).1 =
        joinSegs ((splitSegs text).map (mapInner f)) := by
  intro r acts text hld
  refine ⟨joinSegs_splitSegs text, ?_⟩
  have hrun : applyRules acts [r] text = applyRuleStep acts (text, 0) r := by
    unfold applyRules
    rw [List.foldl_cons, List.foldl_nil]
  rw [hrun]
  cases hsk : ruleSkipped acts r with
  | true =>
    refine ⟨fun x => x, ?_⟩
    rw [applyRuleStep_skipped acts _ r hsk, map_mapInner_id, joinSegs_splitSegs]
  | false =>
    cases hp : r.pat with
    | none =>
      refine ⟨fun x => x, ?_⟩
      rw [applyRuleStep_badPat acts _ r hp, map_mapInner_id, joinSegs_splitSegs]
    | some re =>
      refine ⟨innerRewrite re (expandNewlines r.replace) r.gflag, ?_⟩
      rw [applyRuleStep_eq acts (text, 0) r re hsk hp, if_pos hld]
      rfl

theorem c4_outside_regions_unchanged_witness :
    (c4Rule.lineByLine = true) ∧
    (joinSegs (splitSegs c4Text) = c4Text ∧
      ∃ f : Str → Str, (applyRules [] [c4Rule] c4Text).1 =
        joinSegs ((splitSegs c4Text).map (mapInner f))) :=
  ⟨rfl, c4_outside_regions_unchanged c4Rule [] c4Text rfl⟩

/-- C2 counterexample: the `lineByLine` rule `a` → `b` on `<text>aa</text>`
changes one line containing two matches; `applyRules` counts 1, while the
claimed sum of per-line match counts is 2. -/
theorem c2_count_counterexample :
    applyRules [] [c2Rule] c2Text = ("<text>bb</text>".toList, 1) ∧
    lineMatchSumSpec c2Re true c2Text = 2 ∧
    (applyRules [] [c2Rule] c2Text).2 ≠ lineMatchSumSpec c2Re true c2Text :=
  ⟨by decide, by decide, by decide⟩

/-- C2 amended: for an active `LineDelimited` rule the accumulated count is
the number of lines, across all regions, whose text the rule changed — not
the number of pattern matches on those lines. -/
theorem c2_lineDelimited_count_amended :
    ∀ (acts : List Str) (r : CRule) (re : Regex) (t : Str) (c : Nat),
      r.pat = some re → r.lineByLine = true → ruleSkipped acts r = false →
      (applyRuleStep acts (t, c) r).2 =
        c + changedLineSum re (expandNewlines r.replace) r.gflag t := by
  intro acts r re t c hp hld hsk
  rw [applyRuleStep_eq acts (t, c) r re hsk hp, if_pos hld]
  show c + (applyLineByLine re (expandNewlines r.replace) r.gflag t).2 = _
  simp only [applyLineByLine, changedLineSum, processLines_snd]

theorem c2_lineDelimited_count_amended_witness :
    (c2Rule.pat = some c2Re ∧ c2Rule.lineByLine = true ∧ ruleSkipped [] c2Rule = false) ∧
    (applyRuleStep [] (c2Text, 0) c2Rule).2 =
      0 + changedLineSum c2Re (expandNewlines c2Rule.replace) c2Rule.gflag c2Text :=
  ⟨⟨rfl, rfl, by decide⟩,
    c2_lineDelimited_count_amended [] c2Rule c2Re c2Text 0 rfl rfl (by decide)⟩

/-- C3 counterexample: the whole-text rule `a` → `a` on `a` finds one match
but produces identical text, and `applyRules` counts zero, not one. -/
theorem c3_count_counterexample :
    applyRules [] [c3Rule] "a".toList = ("a".toList, 0) ∧
    jsMatchCount (Regex.lit "a".toList) true "a".toList = 1 ∧
    (applyRules [] [c3Rule] "a".toList).2 ≠
      jsMatchCount (Regex.lit "a".toList) true "a".toList :=
  ⟨by decide, by decide, by decide⟩

/-- C3 amended: for an active whole-text global rule, the step performs the
global replace, and its count contribution is the number of matches found in
the pre-replacement text when the replacement changed the text, and zero when
the replacement returned the text unchanged. -/
theorem c3_wholeText_count_amended :
    ∀ (acts : List Str) (r : CRule) (re : Regex) (t : Str) (c : Nat),
      r.pat = some re → r.lineByLine = false → ruleSkipped acts r = false →
      r.gflag = true →
      (applyRuleStep acts (t, c) r).1 = replaceAll re (expandNewlines r.replace) t ∧
      (applyRuleStep acts (t, c) r).2 =
        c + (if replaceAll re (expandNewlines r.replace) t ≠ t
             then (collectMatches re t).length else 0) := by
  intro acts r re t c hp hld hsk hg
  rw [applyRuleStep_eq acts (t, c) r re hsk hp]
  simp only [hld, Bool.false_eq_true, if_false, hg, jsReplace, jsMatchCount, if_true]
  by_cases hch : replaceAll re (expandNewlines r.replace) t ≠ t
  · simp [hch]
  · simp [hch]
    simp only [ne_eq, not_not] at hch
    exact hch.symm

theorem c3_wholeText_count_amended_witness :
    (c3Rule.pat = some (Regex.lit "a".toList) ∧ c3Rule.lineByLine = false ∧
      ruleSkipped [] c3Rule = false ∧ c3Rule.gflag = true) ∧
    ((applyRuleStep [] ("a".toList, 0) c3Rule).1 =
        replaceAll (Regex.lit "a".toList) (expandNewlines c3Rule.replace) "a".toList ∧
      (applyRuleStep [] ("a".toList, 0) c3Rule).2 =
        0 + (if replaceAll (Regex.lit "a".toList) (expandNewlines c3Rule.replace) "a".toList
                ≠ "a".toList
             then (collectMatches (Regex.lit "a".toList) "a".toList).length else 0)) :=
  ⟨⟨rfl, rfl, by decide, rfl⟩,
    c3_wholeText_count_amended [] c3Rule (Regex.lit "a".toList) "a".toList 0 rfl rfl
      (by decide) rfl⟩

/-- C7 counterexample: after the rule `X` → `User:`, the cascaded title is
`User:Example`; the redirect rule `^(User:)` matches that current title and
its replacement leaves it unchanged, yet the redirect flag stays false,
because the code tests the pattern against the original title `XExample`. -/
theorem c7_redirect_counterexample :
    (transformTitleAcc [c7RuleA] c7Title).cur = "User:Example".toList ∧
    reTest c7RuleB.pat "User:Example".toList = true ∧
    c7RuleB.redirectToCommons = true ∧
    replaceAll c7RuleB.pat c7RuleB.replace "User:Example".toList = "User:Example".toList ∧
    (transformTitleAcc [c7RuleA, c7RuleB] c7Title).redir = false :=
  ⟨by decide, by decide, rfl, by decide, by decide⟩

/-- C7 amended: a rule sets the redirect flag exactly when it was already set,
or the rule has `redirectToCommons`, its replacement leaves the current
cascaded title unchanged, and its pattern matches the ORIGINAL input title
(not the cascaded current title). -/
theorem c7_redirect_condition_amended :
    ∀ (title : Str) (a : TAcc) (r : TRule),
      (tStep title a r).redir = true ↔
        (a.redir = true ∨
          (replaceAll r.pat r.replace a.cur = a.cur ∧ r.redirectToCommons = true ∧
            reTest r.pat title = true)) := by
  intro title a r
  unfold tStep
  by_cases hne : replaceAll r.pat r.replace a.cur ≠ a.cur
  · rw [if_pos hne]
    simp [hne]
  · rw [if_neg hne]
    simp only [ne_eq, not_not] at hne
    by_cases hb : (r.redirectToCommons && reTest r.pat title) = true
    · rw [if_pos hb]
      rw [Bool.and_eq_true] at hb
      simp [hne, hb.1, hb.2]
    · rw [if_neg hb]
      rw [Bool.and_eq_true] at hb
      simp only [hne, true_and]
      constructor
      · intro h; exact Or.inl h
      · intro h
        cases h with
        | inl h => exact h
        | inr h => exact absurd ⟨h.1, h.2⟩ hb

/-- C1: the title `User:Example` against the single rule
`^(User:)` → `$1` with `redirectToCommons` gives no new title but a redirect;
in general, when no rule's replacement moves the title, the result has no new
title, and the redirect flag is set exactly when some `redirectToCommons`
rule's pattern matches the title. -/
theorem c1_unchanged_title_redirect :
    (titleView [c1Rule] c1Title = (none, true) ∧
      transformPageTitle [c1Rule] c1Title = some c1Title) ∧
    (∀ (rules : List TRule) (title : Str),
      (∀ r ∈ rules, replaceAll r.pat r.replace title = title) →
      (titleView rules title).1 = none ∧
        ((titleView rules title).2 = true ↔
          ∃ r ∈ rules, r.redirectToCommons = true ∧ reTest r.pat title = true)) := by
  constructor
  · exact ⟨by decide, by decide⟩
  · intro rules title H
    have h := tfold_fixed rules title false H
    unfold titleView transformTitleAcc
    rw [h]
    constructor
    · rfl
    · rw [Bool.false_or]
      simp [List.any_eq_true, Bool.and_eq_true]

theorem c1_unchanged_title_redirect_witness :
    (∀ r ∈ [c1Rule], replaceAll r.pat r.replace c1Title = c1Title) ∧
    ((titleView [c1Rule] c1Title).1 = none ∧
      ((titleView [c1Rule] c1Title).2 = true ↔
        ∃ r ∈ [c1Rule], r.redirectToCommons = true ∧ reTest r.pat c1Title = true)) :=
  ⟨by decide, c1_unchanged_title_redirect.2 [c1Rule] c1Title (by decide)⟩

/-- C10: when a rule's replacement erases the cascaded title, the accumulator
falls back to the original input title; consequently the transformer never
returns an empty string for a non-empty input title. -/
theorem c10_empty_fallback :
    (∀ (title : Str) (a : TAcc) (r : TRule),
      replaceAll r.pat r.replace a.cur = [] → a.cur ≠ [] →
        (tStep title a r).cur = title) ∧
    (∀ (rules : List TRule) (title t : Str),
      title ≠ [] → transformPageTitle rules title = some t → t ≠ []) := by
  constructor
  · intro title a r hz hcur
    have hne : replaceAll r.pat r.replace a.cur ≠ a.cur := by
      rw [hz]
      exact fun hh => hcur hh.symm
    unfold tStep
    rw [if_pos hne]
    simp [hz]
  · intro rules title t ht h
    unfold transformPageTitle at h
    split at h
    · next hcond =>
      simp only [Option.some.injEq] at h
      subst h
      exact tfold_cur_ne_nil rules title ⟨title, false, false⟩ ht ht
    · exact absurd h (by simp)

theorem c10_empty_fallback_witness :
    (replaceAll c10Rule.pat c10Rule.replace "T".toList = [] ∧ ("T".toList : Str) ≠ [] ∧
      transformPageTitle [c10Rule] "T".toList = some "T".toList) ∧
    ((tStep "T".toList ⟨"T".toList, false, false⟩ c10Rule).cur = "T".toList ∧
      ("T".toList : Str) ≠ []) :=
  ⟨⟨by decide, by decide, by decide⟩,
   ⟨c10_empty_fallback.1 "T".toList ⟨"T".toList, false, false⟩ c10Rule (by decide) (by decide),
    c10_empty_fallback.2 [c10Rule] "T".toList "T".toList (by decide) (by decide)⟩⟩
